import Mathlib

/-!
Shallow embedding of the snake game in `src/lib.rs` (crate `snake-rust`).

The engine-provided plumbing (bevy rendering, window, timer resource,
keyboard resource) is modelled as explicit parameters:
  * entities are bare `Nat` identifiers; a `fresh : Nat` parameter stands for
    the spawner handing out a fresh entity id;
  * the random number generator of `new_food` is an explicit list of draws
    `rs : List (Nat × Nat)`; `rng.gen_range(0..WIDTH)` applied to a draw `r`
    is `r % WIDTH`.  The Rust rejection-sampling loop retries forever, so the
    embedding returns `none` when every provided draw is rejected;
  * the per-frame guard `!game.dead && tick_timer.just_finished()` of
    `update` is modelled by calling `update` once per elapsed tick; the
    `!dead` half of the guard is kept inside `update`;
  * key press / release edges are booleans in a `KeyEvents` record.

`usize` coordinates are `Nat`; the cast chain
`(self.x as isize + rhs.x) as usize` of `impl Add<Offset> for Position`
is euclidean remainder modulo `2 ^ 64` (a 64-bit build).
-/

set_option linter.dupNamespace false

namespace Snake

/-- `const WIDTH: usize = 50;` -/
def WIDTH : Nat := 50

/-- `const HEIGHT: usize = 40;` -/
def HEIGHT : Nat := 40

/-- Number of values of `usize` on a 64-bit target: `2 ^ 64`. -/
def USIZE : Nat := 2 ^ 64

/-- The value of `(n) as usize` for a signed intermediate `n : isize`:
euclidean remainder modulo `2 ^ 64`, as a `Nat`. -/
def usizeOfInt (n : Int) : Nat := (n % (USIZE : Int)).toNat

/-- `struct Position { x: usize, y: usize }` -/
structure Position where
  x : Nat
  y : Nat
deriving DecidableEq, Repr

/-- `struct Offset { x: isize, y: isize }` -/
structure Offset where
  x : Int
  y : Int
deriving DecidableEq, Repr

/-- `impl Neg for Offset`: negate both components. -/
def Offset.neg (o : Offset) : Offset := ⟨-o.x, -o.y⟩

instance : Neg Offset := ⟨Offset.neg⟩

/-- `impl Add<Offset> for Position`:
`Position { x: (self.x as isize + rhs.x) as usize, y: (self.y as isize + rhs.y) as usize }`. -/
def Position.add (p : Position) (o : Offset) : Position :=
  ⟨usizeOfInt ((p.x : Int) + o.x), usizeOfInt ((p.y : Int) + o.y)⟩

instance : HAdd Position Offset Position := ⟨Position.add⟩

/-- `fn is_out_of_bounds(position: Position) -> bool` -/
def is_out_of_bounds (p : Position) : Bool :=
  decide (p.x ≥ WIDTH) || decide (p.y ≥ HEIGHT)

/-- Visual entities are opaque ids handed out by the engine. -/
abbrev Entity := Nat

/-- `struct SnakeNode { entity: Entity, position: Position }` -/
structure SnakeNode where
  entity : Entity
  position : Position
deriving DecidableEq, Repr

/-- `struct SnakeFood { entity: Entity, position: Position }` -/
structure SnakeFood where
  entity : Entity
  position : Position
deriving DecidableEq, Repr

/-- `struct Snake { nodes: Vec<SnakeNode>, facing: Offset }`
(nodes in tail-to-head order, head last). -/
structure Snake where
  nodes : List SnakeNode
  facing : Offset
deriving DecidableEq, Repr

/-- `struct Game { dead, food, player, tick_timer, input_queue }`; the timer
is engine state modelled by when `update` is invoked, so it is omitted.
The `VecDeque` front is the head of the list. -/
structure Game where
  dead : Bool
  food : Option SnakeFood
  player : Snake
  input_queue : List Offset
deriving DecidableEq, Repr

/-- The input-draining loop at the top of `update`:
`while let Some(next) = input_queue.pop_front() { if next != facing && next != -facing { facing = next; break } }`.
Returns the facing after the loop and the remaining queue. -/
def drain_queue (facing : Offset) : List Offset → Offset × List Offset
  | [] => (facing, [])
  | next :: rest =>
    if next ≠ facing ∧ next ≠ -facing then (next, rest)
    else drain_queue facing rest

/-- The move-branch loop
`for node in nodes.iter_mut().rev() { swap(&mut position, &mut node.position) }`,
written on the reversed (head-first) node list: each node takes the current
accumulator and passes its old position on. -/
def swap_chain (position : Position) : List SnakeNode → List SnakeNode
  | [] => []
  | node :: rest => { node with position := position } :: swap_chain node.position rest

/-- The whole move branch: run the swap chain over `nodes.iter_mut().rev()`
starting from `position = next_position`. -/
def shift_nodes (nodes : List SnakeNode) (next_position : Position) : List SnakeNode :=
  (swap_chain next_position nodes.reverse).reverse

/-- One draw of the loop body of `new_food`:
`rng.gen_range(0..WIDTH)`, `rng.gen_range(0..HEIGHT)` applied to raw draw `r`. -/
def gen_position (r : Nat × Nat) : Position := ⟨r.1 % WIDTH, r.2 % HEIGHT⟩

/-- The rejection-sampling loop of `new_food`: keep drawing until the cell is
not occupied by `nodes`; `none` when the supplied draws run out (the Rust
loop would keep spinning). -/
def pick_food_position (nodes : List SnakeNode) : List (Nat × Nat) → Option Position
  | [] => none
  | r :: rest =>
    let position := gen_position r
    if nodes.any (fun n => decide (n.position = position)) then pick_food_position nodes rest
    else some position

/-- `fn new_food(cmd, transforms, spawner, game)`: pick a free cell, then
either move the existing food entity there or (first call only) spawn a new
food entity `food_entity`.  `none` when the sampling loop does not finish
within the supplied draws. -/
def new_food (rs : List (Nat × Nat)) (food_entity : Entity) (g : Game) : Option Game :=
  match pick_food_position g.player.nodes rs with
  | none => none
  | some position =>
    match g.food with
    | some food => some { g with food := some { food with position := position } }
    | none => some { g with food := some ⟨food_entity, position⟩ }

/-- The collision check closing `update` (after either branch):
`let overlapping = nodes.iter().filter(|n| n.position == next_position).count(); if overlapping > 1 || is_out_of_bounds(next_position) { game.dead = true }`. -/
def check_collision (next_position : Position) (g2 : Game) : Game :=
  let overlapping :=
    (g2.player.nodes.filter (fun n => decide (n.position = next_position))).length
  if overlapping > 1 || is_out_of_bounds next_position then { g2 with dead := true }
  else g2

/-- `fn update(...)`, the body guarded by
`if !game.dead && game.tick_timer.tick(time.delta()).just_finished()`:
drain the input queue for a new facing, compute `next_position`, take the
eat branch (push a node spawned with id `fresh`, then `new_food`) or the
move branch (tail-to-head swap chain), then run the collision check.
`none` models a panic of `nodes.last().unwrap()` on an empty snake or a
non-terminating `new_food` loop. -/
def update (rs : List (Nat × Nat)) (fresh : Entity) (g : Game) : Option Game :=
  if g.dead then some g
  else
    let drained := drain_queue g.player.facing g.input_queue
    match g.player.nodes.getLast? with
    | none => none
    | some head =>
      let next_position := head.position + drained.1
      let moved : Option Game :=
        if g.food.map SnakeFood.position = some next_position then
          new_food rs (fresh + 1)
            { g with
              player := ⟨g.player.nodes ++ [⟨fresh, next_position⟩], drained.1⟩,
              input_queue := drained.2 }
        else
          some { g with
                 player := ⟨shift_nodes g.player.nodes next_position, drained.1⟩,
                 input_queue := drained.2 }
      moved.map (check_collision next_position)

/-- `fn cleanup_game(cmd, game)`: despawn every node entity and the food
entity; returns the list of despawned entities. -/
def cleanup_game (g : Game) : List Entity :=
  g.player.nodes.map SnakeNode.entity ++
    (match g.food with
     | some food => [food.entity]
     | none => [])

/-- `fn setup_game(cmd, transforms, spawner)`: a fresh `Game` with nodes at
`(5 + i, 5)` for `i in 0..5` (entities `e0 .. e0 + 4`), facing `(1, 0)`,
then `new_food` (spawning entity `e0 + 5` for the food). -/
def setup_game (rs : List (Nat × Nat)) (e0 : Entity) : Option Game :=
  let g : Game :=
    { dead := false
      food := none
      player :=
        { nodes := (List.range 5).map (fun i => ⟨e0 + i, ⟨5 + i, 5⟩⟩)
          facing := ⟨1, 0⟩ }
      input_queue := [] }
  new_food rs (e0 + 5) g

/-- The keyboard state seen by one frame's `input` system: `just_pressed`
edges for the four arrows, the `just_released` edge for KeyR, and the held
state for Escape. -/
structure KeyEvents where
  up_pressed : Bool
  down_pressed : Bool
  right_pressed : Bool
  left_pressed : Bool
  r_released : Bool
  escape_held : Bool
deriving DecidableEq, Repr

/-- The four `if input.just_pressed(...) { input_queue.push_back(...) }`
statements of `fn input`, in source order (Up, Down, Right, Left). -/
def queue_directions (k : KeyEvents) (q : List Offset) : List Offset :=
  let q1 := if k.up_pressed then q ++ [⟨0, -1⟩] else q
  let q2 := if k.down_pressed then q1 ++ [⟨0, 1⟩] else q1
  let q3 := if k.right_pressed then q2 ++ [⟨1, 0⟩] else q2
  if k.left_pressed then q3 ++ [⟨-1, 0⟩] else q3

/-- `fn input(...)`: while alive, queue the pressed directions; on a KeyR
release, `cleanup_game` then `setup_game` (with draws `rs` and fresh
entities from `e0`); Escape requests exit.  Returns the resulting game (the
freshly set-up game on restart), the despawned entities, and the exit flag. -/
def input (k : KeyEvents) (rs : List (Nat × Nat)) (e0 : Entity) (g : Game) :
    Option Game × List Entity × Bool :=
  let g1 := if g.dead then g else { g with input_queue := queue_directions k g.input_queue }
  if k.r_released then (setup_game rs e0, cleanup_game g1, k.escape_held)
  else (some g1, [], k.escape_held)

/-- Iterate `update` (with no queued rng draws, fresh id 0) `n` times. -/
def iterate_update : Nat → Game → Option Game
  | 0, g => some g
  | n + 1, g =>
    match update [] 0 g with
    | none => none
    | some g1 => iterate_update n g1

/-- Game states reachable from startup through any interleaving of frames:
`setup_game` at startup (or after a restart, which `input` performs itself),
`input` frames, and `update` ticks. -/
inductive Reachable : Game → Prop
  | init (rs : List (Nat × Nat)) (e0 : Entity) (g : Game) :
      setup_game rs e0 = some g → Reachable g
  | key (k : KeyEvents) (rs : List (Nat × Nat)) (e0 : Entity) (g g1 : Game) :
      Reachable g → (input k rs e0 g).1 = some g1 → Reachable g1
  | tick (rs : List (Nat × Nat)) (fresh : Entity) (g g1 : Game) :
      Reachable g → update rs fresh g = some g1 → Reachable g1

/-- The four unit offsets the input system can enqueue. -/
def unit_offsets : List Offset := [⟨0, -1⟩, ⟨0, 1⟩, ⟨1, 0⟩, ⟨-1, 0⟩]

/-- A position strictly inside the 50 × 40 board. -/
def in_board (p : Position) : Prop := p.x < WIDTH ∧ p.y < HEIGHT

instance (p : Position) : Decidable (in_board p) :=
  inferInstanceAs (Decidable (p.x < WIDTH ∧ p.y < HEIGHT))

/-- Grid adjacency: the two cells differ by exactly one unit in exactly one
coordinate. -/
def adjacent (p q : Position) : Prop :=
  (p.x = q.x ∧ (p.y + 1 = q.y ∨ q.y + 1 = p.y)) ∨
  (p.y = q.y ∧ (p.x + 1 = q.x ∨ q.x + 1 = p.x))

instance (p q : Position) : Decidable (adjacent p q) :=
  inferInstanceAs (Decidable
    ((p.x = q.x ∧ (p.y + 1 = q.y ∨ q.y + 1 = p.y)) ∨
     (p.y = q.y ∧ (p.x + 1 = q.x ∨ q.x + 1 = p.x))))

instance decidableChainAdjacent : (l : List Position) → Decidable (List.Chain' adjacent l)
  | [] => isTrue List.chain'_nil
  | [a] => isTrue (List.chain'_singleton a)
  | a :: b :: l =>
    haveI i2 : Decidable (List.Chain' adjacent (b :: l)) := decidableChainAdjacent (b :: l)
    decidable_of_iff (adjacent a b ∧ List.Chain' adjacent (b :: l)) List.chain'_cons.symm

/-- The state invariant maintained by every reachable state: at least the
five initial segments, facing and queued offsets are unit offsets, and —
while alive — every segment is on the board and consecutive segments are
grid-adjacent. -/
structure Inv (g : Game) : Prop where
  len5 : 5 ≤ g.player.nodes.length
  facing_unit : g.player.facing ∈ unit_offsets
  queue_unit : ∀ o ∈ g.input_queue, o ∈ unit_offsets
  alive_bounds : g.dead = false → ∀ n ∈ g.player.nodes, in_board n.position
  alive_chain : g.dead = false →
    List.Chain' adjacent (g.player.nodes.map SnakeNode.position)

/-! ### Concrete states used by witnesses and counterexamples -/

/-- A frame pressing only ArrowUp. -/
def kUp : KeyEvents := ⟨true, false, false, false, false, false⟩

/-- A frame pressing only ArrowLeft. -/
def kLeft : KeyEvents := ⟨false, false, false, true, false, false⟩

/-- A frame releasing only KeyR. -/
def kRestart : KeyEvents := ⟨false, false, false, false, true, false⟩

/-- The freshly set-up game when the first rng draw is `(20, 30)` and
entities are numbered from 0. -/
def gStart : Game :=
  { dead := false
    food := some ⟨5, ⟨20, 30⟩⟩
    player :=
      { nodes := [⟨0, ⟨5, 5⟩⟩, ⟨1, ⟨6, 5⟩⟩, ⟨2, ⟨7, 5⟩⟩, ⟨3, ⟨8, 5⟩⟩, ⟨4, ⟨9, 5⟩⟩]
        facing := ⟨1, 0⟩ }
    input_queue := [] }

/-- `gStart` after an ArrowUp press frame. -/
def gUpQueued : Game := { gStart with input_queue := [⟨0, -1⟩] }

/-- `gUpQueued` after one tick: the snake turned up, head at `(9, 4)`. -/
def gTurnedUp : Game :=
  { dead := false
    food := some ⟨5, ⟨20, 30⟩⟩
    player :=
      { nodes := [⟨0, ⟨6, 5⟩⟩, ⟨1, ⟨7, 5⟩⟩, ⟨2, ⟨8, 5⟩⟩, ⟨3, ⟨9, 5⟩⟩, ⟨4, ⟨9, 4⟩⟩]
        facing := ⟨0, -1⟩ }
    input_queue := [] }

/-- `gTurnedUp` after an ArrowLeft press frame. -/
def gLeftQueued : Game := { gTurnedUp with input_queue := [⟨-1, 0⟩] }

/-- `gLeftQueued` after ten ticks: the snake has walked off the left edge;
the head coordinate wrapped to `2 ^ 64 - 1` and the game is dead. -/
def gWrapped : Game :=
  { dead := true
    food := some ⟨5, ⟨20, 30⟩⟩
    player :=
      { nodes := [⟨0, ⟨3, 4⟩⟩, ⟨1, ⟨2, 4⟩⟩, ⟨2, ⟨1, 4⟩⟩, ⟨3, ⟨0, 4⟩⟩,
                  ⟨4, ⟨18446744073709551615, 4⟩⟩]
        facing := ⟨-1, 0⟩ }
    input_queue := [] }

/-- `gStart` after one tick with an empty queue: every segment moved one
cell right. -/
def gMoved : Game :=
  { dead := false
    food := some ⟨5, ⟨20, 30⟩⟩
    player :=
      { nodes := [⟨0, ⟨6, 5⟩⟩, ⟨1, ⟨7, 5⟩⟩, ⟨2, ⟨8, 5⟩⟩, ⟨3, ⟨9, 5⟩⟩, ⟨4, ⟨10, 5⟩⟩]
        facing := ⟨1, 0⟩ }
    input_queue := [] }

/-- The start state with the food directly ahead of the head, at `(10, 5)`. -/
def gFoodAhead : Game :=
  { dead := false
    food := some ⟨5, ⟨10, 5⟩⟩
    player :=
      { nodes := [⟨0, ⟨5, 5⟩⟩, ⟨1, ⟨6, 5⟩⟩, ⟨2, ⟨7, 5⟩⟩, ⟨3, ⟨8, 5⟩⟩, ⟨4, ⟨9, 5⟩⟩]
        facing := ⟨1, 0⟩ }
    input_queue := [] }

/-- `gFoodAhead` after one eat tick (rng draw `(20, 30)`, fresh entity 10):
one segment longer, food relocated to `(20, 30)`. -/
def gAte : Game :=
  { dead := false
    food := some ⟨5, ⟨20, 30⟩⟩
    player :=
      { nodes := [⟨0, ⟨5, 5⟩⟩, ⟨1, ⟨6, 5⟩⟩, ⟨2, ⟨7, 5⟩⟩, ⟨3, ⟨8, 5⟩⟩, ⟨4, ⟨9, 5⟩⟩,
                  ⟨10, ⟨10, 5⟩⟩]
        facing := ⟨1, 0⟩ }
    input_queue := [] }

/-- A dead game used to witness that `update` is the identity on dead
states. -/
def gDead : Game :=
  { dead := true
    food := some ⟨5, ⟨20, 30⟩⟩
    player :=
      { nodes := [⟨0, ⟨5, 5⟩⟩, ⟨1, ⟨6, 5⟩⟩, ⟨2, ⟨7, 5⟩⟩, ⟨3, ⟨8, 5⟩⟩, ⟨4, ⟨9, 5⟩⟩]
        facing := ⟨1, 0⟩ }
    input_queue := [⟨0, 1⟩] }

/-! ### Arithmetic of the usize cast chain -/

/-- `(n as isize + d) as usize` agrees with the mathematical sum whenever
that sum is non-negative and below `2 ^ 64`. -/
lemma usizeOfInt_of_nonneg (n : Int) (h0 : 0 ≤ n) (h1 : n < (USIZE : Int)) :
    (usizeOfInt n : Int) = n := by
  unfold usizeOfInt USIZE at *
  omega

/-- A negative sum `-k` (with `k ≤ 2 ^ 64`) wraps to `2 ^ 64 - k`. -/
lemma usizeOfInt_of_neg (n : Int) (h0 : n < 0) (h1 : -(USIZE : Int) ≤ n) :
    (usizeOfInt n : Int) = n + (USIZE : Int) := by
  unfold usizeOfInt USIZE at *
  omega

/-- Unfolding `+` on `Position`/`Offset` to the embedded `Add` impl. -/
lemma hAdd_def (p : Position) (o : Offset) : p + o = Position.add p o := rfl

/-- C5: `is_out_of_bounds` is exactly the `x ≥ 50 ∨ y ≥ 40` test, and for an
in-bounds position and a unit offset the wrapped sum fails the bounds check
exactly when the mathematical signed sum leaves `[0, 50) × [0, 40)`; in
particular stepping off the low edge wraps to a value that is always caught. -/
theorem C5_bounds_and_wrap :
    (∀ p : Position, is_out_of_bounds p = true ↔ (WIDTH ≤ p.x ∨ HEIGHT ≤ p.y)) ∧
    (∀ (p : Position) (o : Offset), o ∈ unit_offsets → in_board p →
      (is_out_of_bounds (p + o) = true ↔
        ((p.x : Int) + o.x < 0 ∨ 50 ≤ (p.x : Int) + o.x ∨
         (p.y : Int) + o.y < 0 ∨ 40 ≤ (p.y : Int) + o.y))) := by
  constructor
  · intro p
    simp [is_out_of_bounds]
  · intro p o ho hp
    obtain ⟨hpx, hpy⟩ := hp
    simp only [unit_offsets, List.mem_cons, List.not_mem_nil, or_false] at ho
    have hx50 : p.x < 50 := hpx
    have hy40 : p.y < 40 := hpy
    rcases ho with rfl | rfl | rfl | rfl <;>
      simp only [hAdd_def, Position.add, is_out_of_bounds, usizeOfInt, USIZE, WIDTH, HEIGHT,
        Bool.or_eq_true, decide_eq_true_eq] <;>
      omega

/-- Witness for C5: the corner case `(0, 5) + (-1, 0)` wraps and is caught,
and `x = 50` is out of bounds. -/
theorem C5_bounds_and_wrap_witness :
    is_out_of_bounds ⟨50, 0⟩ = true ∧
    is_out_of_bounds ((⟨0, 5⟩ : Position) + (⟨-1, 0⟩ : Offset)) = true :=
  ⟨(C5_bounds_and_wrap.1 ⟨50, 0⟩).mpr (Or.inl (by decide)),
   (C5_bounds_and_wrap.2 ⟨0, 5⟩ ⟨-1, 0⟩ (by decide) (by decide)).mpr (by decide)⟩

/-! ### The input-draining loop -/

/-- When every offset before `o` in the queue is the facing or its negation
and `o` is neither, the drain stops at `o` with the rest preserved. -/
lemma drain_queue_accept (f : Offset) (q1 : List Offset) (o : Offset) (q2 : List Offset)
    (h1 : ∀ x ∈ q1, x = f ∨ x = -f) (ho1 : o ≠ f) (ho2 : o ≠ -f) :
    drain_queue f (q1 ++ o :: q2) = (o, q2) := by
  induction q1 with
  | nil => simp [drain_queue, ho1, ho2]
  | cons x t ih =>
    have hx := h1 x (List.mem_cons_self x t)
    have hrej : ¬(x ≠ f ∧ x ≠ -f) := by
      rcases hx with rfl | rfl
      · exact fun hc => hc.1 rfl
      · exact fun hc => hc.2 rfl
    simp only [List.cons_append, drain_queue, if_neg hrej]
    exact ih fun y hy => h1 y (List.mem_cons_of_mem x hy)

/-- When every queued offset is the facing or its negation, the drain
discards the whole queue and keeps the facing. -/
lemma drain_queue_reject_all (f : Offset) (q : List Offset)
    (h : ∀ x ∈ q, x = f ∨ x = -f) :
    drain_queue f q = (f, []) := by
  induction q with
  | nil => rfl
  | cons x t ih =>
    have hx := h x (List.mem_cons_self x t)
    have hrej : ¬(x ≠ f ∧ x ≠ -f) := by
      rcases hx with rfl | rfl
      · exact fun hc => hc.1 rfl
      · exact fun hc => hc.2 rfl
    simp only [drain_queue, if_neg hrej]
    exact ih fun y hy => h y (List.mem_cons_of_mem x hy)

/-! ### Characterizations of `new_food`, `check_collision` and `update` -/

/-- A successful `new_food` call only relocates the food: the sampled cell
comes from `pick_food_position` and everything else is untouched. -/
lemma new_food_some (rs : List (Nat × Nat)) (e : Entity) (g g' : Game)
    (h : new_food rs e g = some g') :
    ∃ p, pick_food_position g.player.nodes rs = some p ∧
      g'.dead = g.dead ∧ g'.player = g.player ∧ g'.input_queue = g.input_queue ∧
      g'.food.map SnakeFood.position = some p := by
  unfold new_food at h
  cases hp : pick_food_position g.player.nodes rs with
  | none => rw [hp] at h; cases h
  | some p =>
    rw [hp] at h
    refine ⟨p, rfl, ?_⟩
    cases hf : g.food with
    | none =>
      rw [hf] at h
      simp only [Option.some.injEq] at h
      subst h
      simp
    | some food =>
      rw [hf] at h
      simp only [Option.some.injEq] at h
      subst h
      simp

/-- `check_collision` never touches the player, the food or the queue. -/
lemma check_collision_frame (next : Position) (g2 : Game) :
    (check_collision next g2).player = g2.player ∧
    (check_collision next g2).food = g2.food ∧
    (check_collision next g2).input_queue = g2.input_queue := by
  unfold check_collision
  dsimp only
  split <;> simp

/-- For a game that is alive going into the check, the resulting dead flag
is exactly the collision condition. -/
lemma check_collision_dead_iff (next : Position) (g2 : Game) (h : g2.dead = false) :
    ((check_collision next g2).dead = true ↔
      1 < (g2.player.nodes.filter (fun n => decide (n.position = next))).length ∨
      is_out_of_bounds next = true) := by
  unfold check_collision
  dsimp only
  split
  case isTrue hcond =>
    simpa using hcond
  case isFalse hcond =>
    rw [h]
    constructor
    · intro hfalse; cases hfalse
    · intro hor
      exact absurd (by simpa using hor) hcond

/-- An alive tick whose `next_position` misses the food takes the move
branch: the body shifts along the swap chain, then the collision check runs. -/
lemma update_move (rs : List (Nat × Nat)) (fresh : Entity) (g : Game) (head : SnakeNode)
    (f : Offset) (q : List Offset) (next : Position)
    (hd : g.dead = false) (hh : g.player.nodes.getLast? = some head)
    (hdq : drain_queue g.player.facing g.input_queue = (f, q))
    (hnext : next = head.position + f)
    (hf : g.food.map SnakeFood.position ≠ some next) :
    update rs fresh g =
      some (check_collision next
        { g with player := ⟨shift_nodes g.player.nodes next, f⟩, input_queue := q }) := by
  subst hnext
  unfold update
  rw [hd, hh, hdq]
  simp only [Bool.false_eq_true, if_false, if_neg hf]
  rfl

/-- An alive tick whose `next_position` hits the food takes the eat branch:
a node with id `fresh` is pushed, `new_food` relocates the food, then the
collision check runs. -/
lemma update_eat (rs : List (Nat × Nat)) (fresh : Entity) (g : Game) (head : SnakeNode)
    (f : Offset) (q : List Offset) (next : Position)
    (hd : g.dead = false) (hh : g.player.nodes.getLast? = some head)
    (hdq : drain_queue g.player.facing g.input_queue = (f, q))
    (hnext : next = head.position + f)
    (hf : g.food.map SnakeFood.position = some next) :
    update rs fresh g =
      (new_food rs (fresh + 1)
        { g with player := ⟨g.player.nodes ++ [⟨fresh, next⟩], f⟩,
                 input_queue := q }).map (check_collision next) := by
  subst hnext
  unfold update
  rw [hd, hh, hdq]
  simp only [Bool.false_eq_true, if_false, if_pos hf]

/-- An alive tick on an empty snake panics at `nodes.last().unwrap()`. -/
lemma update_empty (rs : List (Nat × Nat)) (fresh : Entity) (g : Game)
    (hd : g.dead = false) (hh : g.player.nodes.getLast? = none) :
    update rs fresh g = none := by
  unfold update
  rw [hd, hh]
  simp

/-- A successful alive tick sets the facing and the remaining queue to the
output of the draining loop, whichever branch ran. -/
lemma update_facing_queue (rs : List (Nat × Nat)) (fresh : Entity) (g g1 : Game)
    (hd : g.dead = false) (hupd : update rs fresh g = some g1) :
    g1.player.facing = (drain_queue g.player.facing g.input_queue).1 ∧
    g1.input_queue = (drain_queue g.player.facing g.input_queue).2 := by
  cases hh : g.player.nodes.getLast? with
  | none =>
    rw [update_empty rs fresh g hd hh] at hupd
    cases hupd
  | some head =>
    rcases hdq : drain_queue g.player.facing g.input_queue with ⟨f, q⟩
    by_cases hf : g.food.map SnakeFood.position = some (head.position + f)
    · rw [update_eat rs fresh g head f q _ hd hh hdq rfl hf] at hupd
      cases hnf : new_food rs (fresh + 1)
          { g with player := ⟨g.player.nodes ++ [⟨fresh, head.position + f⟩], f⟩,
                   input_queue := q } with
      | none => rw [hnf] at hupd; cases hupd
      | some g2 =>
        rw [hnf] at hupd
        simp only [Option.map, Option.some.injEq] at hupd
        subst hupd
        obtain ⟨p, _, _, hplayer, hqueue, _⟩ := new_food_some _ _ _ _ hnf
        obtain ⟨hcp, _, hcq⟩ := check_collision_frame (head.position + f) g2
        rw [hcp, hcq, hplayer, hqueue]
        exact ⟨rfl, rfl⟩
    · rw [update_move rs fresh g head f q _ hd hh hdq rfl hf] at hupd
      simp only [Option.some.injEq] at hupd
      subst hupd
      obtain ⟨hcp, _, hcq⟩ := check_collision_frame (head.position + f)
        { g with player := ⟨shift_nodes g.player.nodes (head.position + f), f⟩,
                 input_queue := q }
      rw [hcp, hcq]
      exact ⟨rfl, rfl⟩

/-! ### C3: the pending-direction queue -/

/-- C3: each alive tick pops the queue from the front; the first popped
offset that is neither the facing nor its negation becomes the new facing
and the entries behind it survive; popped rejects are discarded; an
exhausted queue leaves the facing unchanged; the tick's resulting facing and
queue are exactly the drain's output; and the two concrete scenarios from
the spec behave as stated. -/
theorem C3_queue_drain :
    (∀ (f : Offset) (q1 : List Offset) (o : Offset) (q2 : List Offset),
        (∀ x ∈ q1, x = f ∨ x = -f) → o ≠ f → o ≠ -f →
        drain_queue f (q1 ++ o :: q2) = (o, q2)) ∧
    (∀ (f : Offset) (q : List Offset), (∀ x ∈ q, x = f ∨ x = -f) →
        drain_queue f q = (f, [])) ∧
    (∀ (rs : List (Nat × Nat)) (fresh : Entity) (g g1 : Game),
        g.dead = false → update rs fresh g = some g1 →
        g1.player.facing = (drain_queue g.player.facing g.input_queue).1 ∧
        g1.input_queue = (drain_queue g.player.facing g.input_queue).2) ∧
    drain_queue ⟨1, 0⟩ [⟨-1, 0⟩] = (⟨1, 0⟩, []) ∧
    drain_queue ⟨1, 0⟩ [⟨0, 1⟩] = (⟨0, 1⟩, []) :=
  ⟨drain_queue_accept, drain_queue_reject_all,
   fun rs fresh g g1 hd hupd => update_facing_queue rs fresh g g1 hd hupd,
   by decide, by decide⟩

/-- Witness for C3: with facing `(1, 0)` and queue
`[(1, 0), (-1, 0), (0, -1), (0, 1)]`, the two rejects are dropped, `(0, -1)`
is accepted and `(0, 1)` is kept for later ticks. -/
theorem C3_queue_drain_witness :
    drain_queue ⟨1, 0⟩ [⟨1, 0⟩, ⟨-1, 0⟩, ⟨0, -1⟩, ⟨0, 1⟩] = (⟨0, -1⟩, [⟨0, 1⟩]) :=
  C3_queue_drain.1 ⟨1, 0⟩ [⟨1, 0⟩, ⟨-1, 0⟩] ⟨0, -1⟩ [⟨0, 1⟩]
    (by decide) (by decide) (by decide)

/-! ### C9: dead is terminal for the update step -/

/-- C9: with `dead = true` the update system's tick body never runs, so the
whole game state — segments, queue, food and the dead flag itself — is
returned unchanged; only an external restart builds a new game. -/
theorem C9_dead_frozen (rs : List (Nat × Nat)) (fresh : Entity) (g : Game)
    (h : g.dead = true) : update rs fresh g = some g := by
  unfold update
  rw [h]
  simp

/-- Witness for C9 at a concrete dead game. -/
theorem C9_dead_frozen_witness : update [] 0 gDead = some gDead :=
  C9_dead_frozen [] 0 gDead rfl

/-! ### The swap chain of the move branch -/

/-- Positions after the swap chain, walked head-first: the accumulator in
front, every node taking the position of its predecessor in the walk, the
old last position falling off. -/
lemma swap_chain_map_position (l : List SnakeNode) : ∀ p : Position,
    (swap_chain p l).map SnakeNode.position =
      (p :: l.map SnakeNode.position).dropLast := by
  induction l with
  | nil => intro p; rfl
  | cons n t ih =>
    intro p
    simp only [swap_chain, List.map_cons, ih n.position]
    cases t with
    | nil => rfl
    | cons m t2 => simp [List.dropLast_cons₂]

/-- The swap chain never touches entities. -/
lemma swap_chain_map_entity (l : List SnakeNode) : ∀ p : Position,
    (swap_chain p l).map SnakeNode.entity = l.map SnakeNode.entity := by
  induction l with
  | nil => intro p; rfl
  | cons n t ih => intro p; simp only [swap_chain, List.map_cons, ih n.position]

/-- Reversal bookkeeping for the shift: dropping the last of `x :: ps.reverse`
and reversing again is `ps.tail ++ [x]`. -/
lemma dropLast_reverse_cons {α : Type} (ps : List α) (x : α) (h : ps ≠ []) :
    ((x :: ps.reverse).dropLast).reverse = ps.tail ++ [x] := by
  cases ps with
  | nil => exact absurd rfl h
  | cons a t =>
    rw [List.reverse_cons, show x :: (t.reverse ++ [a]) = (x :: t.reverse) ++ [a] from rfl,
      List.dropLast_concat, List.reverse_cons, List.reverse_reverse]
    rfl

/-- The move branch: every segment takes the position of the segment ahead
of it and the head takes `next`; as position lists, the old tail drops off
the front and `next` is appended at the head end. -/
lemma shift_nodes_map_position (nodes : List SnakeNode) (next : Position)
    (h : nodes ≠ []) :
    (shift_nodes nodes next).map SnakeNode.position =
      (nodes.map SnakeNode.position).tail ++ [next] := by
  unfold shift_nodes
  rw [List.map_reverse, swap_chain_map_position, List.map_reverse]
  have hne : nodes.map SnakeNode.position ≠ [] := by
    intro e
    exact h (List.map_eq_nil_iff.mp e)
  rw [dropLast_reverse_cons (nodes.map SnakeNode.position) next hne]

/-- The move branch keeps every entity in place. -/
lemma shift_nodes_map_entity (nodes : List SnakeNode) (next : Position) :
    (shift_nodes nodes next).map SnakeNode.entity = nodes.map SnakeNode.entity := by
  unfold shift_nodes
  rw [List.map_reverse, swap_chain_map_entity, List.map_reverse, List.reverse_reverse]

/-- The move branch preserves the body length. -/
lemma shift_nodes_length (nodes : List SnakeNode) (next : Position) :
    (shift_nodes nodes next).length = nodes.length := by
  have h := congrArg List.length (shift_nodes_map_entity nodes next)
  simpa using h

/-! ### C1: a non-eating tick shifts the body -/

/-- C1: on an alive tick whose `next_position` misses the food, the body
length is unchanged, the position list becomes its own tail with
`next_position` appended (each segment takes the position of the segment
ahead), the new head — the last element — sits at the old head position plus
the tick's facing, the entities are untouched and the food does not move. -/
theorem C1_move_tick (rs : List (Nat × Nat)) (fresh : Entity) (g g1 : Game)
    (head : SnakeNode) (f : Offset) (q : List Offset)
    (hd : g.dead = false)
    (hh : g.player.nodes.getLast? = some head)
    (hdq : drain_queue g.player.facing g.input_queue = (f, q))
    (hf : g.food.map SnakeFood.position ≠ some (head.position + f))
    (hupd : update rs fresh g = some g1) :
    g1.player.nodes.length = g.player.nodes.length ∧
    g1.player.nodes.map SnakeNode.position =
      (g.player.nodes.map SnakeNode.position).tail ++ [head.position + f] ∧
    (g1.player.nodes.map SnakeNode.position).getLast? = some (head.position + f) ∧
    g1.player.nodes.map SnakeNode.entity = g.player.nodes.map SnakeNode.entity ∧
    g1.food = g.food := by
  have hne : g.player.nodes ≠ [] := by
    intro e
    rw [e] at hh
    cases hh
  rw [update_move rs fresh g head f q _ hd hh hdq rfl hf] at hupd
  simp only [Option.some.injEq] at hupd
  subst hupd
  obtain ⟨hcp, hcf, _⟩ := check_collision_frame (head.position + f)
    { g with player := ⟨shift_nodes g.player.nodes (head.position + f), f⟩,
             input_queue := q }
  rw [hcp, hcf]
  refine ⟨shift_nodes_length _ _, shift_nodes_map_position _ _ hne, ?_,
    shift_nodes_map_entity _ _, rfl⟩
  rw [shift_nodes_map_position _ _ hne]
  simp

/-- Witness for C1: the spec's concrete scenario — from the start state, one
tick with no input moves the body to `(6,5) … (10,5)`. -/
theorem C1_move_tick_witness :
    gMoved.player.nodes.length = gStart.player.nodes.length ∧
    gMoved.player.nodes.map SnakeNode.position =
      (gStart.player.nodes.map SnakeNode.position).tail ++ [⟨10, 5⟩] ∧
    (gMoved.player.nodes.map SnakeNode.position).getLast? = some ⟨10, 5⟩ ∧
    gMoved.player.nodes.map SnakeNode.entity = gStart.player.nodes.map SnakeNode.entity ∧
    gMoved.food = gStart.food := by
  have h := C1_move_tick [] 10 gStart gMoved ⟨4, ⟨9, 5⟩⟩ ⟨1, 0⟩ []
    rfl (by decide) (by decide) (by decide) (by decide)
  simpa using h

/-! ### C2: an eating tick grows the snake and resamples the food -/

/-- The rejection-sampling loop only ever returns an on-board cell that no
snake segment occupies. -/
lemma pick_food_position_spec (nodes : List SnakeNode) :
    ∀ (rs : List (Nat × Nat)) (p : Position),
      pick_food_position nodes rs = some p →
      in_board p ∧ ∀ n ∈ nodes, n.position ≠ p := by
  intro rs
  induction rs with
  | nil => intro p h; cases h
  | cons r rest ih =>
    intro p h
    simp only [pick_food_position] at h
    split at h
    · exact ih p h
    case isFalse hany =>
      simp only [Option.some.injEq] at h
      subst h
      constructor
      · unfold in_board gen_position WIDTH HEIGHT
        exact ⟨Nat.mod_lt _ (by norm_num), Nat.mod_lt _ (by norm_num)⟩
      · intro n hn he
        exact hany (List.any_eq_true.mpr ⟨n, hn, by simp [he]⟩)

/-- C2: on an alive tick whose `next_position` hits the food, the old body
is kept in place with one new segment appended at `next_position` (length
grows by one, the tail does not move), and the food's new position is an
on-board cell that no segment — the new head included — occupies. -/
theorem C2_eat_tick (rs : List (Nat × Nat)) (fresh : Entity) (g g1 : Game)
    (head : SnakeNode) (f : Offset) (q : List Offset)
    (hd : g.dead = false)
    (hh : g.player.nodes.getLast? = some head)
    (hdq : drain_queue g.player.facing g.input_queue = (f, q))
    (hf : g.food.map SnakeFood.position = some (head.position + f))
    (hupd : update rs fresh g = some g1) :
    g1.player.nodes = g.player.nodes ++ [⟨fresh, head.position + f⟩] ∧
    g1.player.nodes.length = g.player.nodes.length + 1 ∧
    ∃ p, g1.food.map SnakeFood.position = some p ∧ in_board p ∧
      ∀ n ∈ g1.player.nodes, n.position ≠ p := by
  rw [update_eat rs fresh g head f q _ hd hh hdq rfl hf] at hupd
  cases hnf : new_food rs (fresh + 1)
      { g with player := ⟨g.player.nodes ++ [⟨fresh, head.position + f⟩], f⟩,
               input_queue := q } with
  | none => rw [hnf] at hupd; cases hupd
  | some g2 =>
    rw [hnf] at hupd
    simp only [Option.map, Option.some.injEq] at hupd
    subst hupd
    obtain ⟨p, hpick, _, hplayer, _, hfood⟩ := new_food_some _ _ _ _ hnf
    obtain ⟨hcp, hcf, _⟩ := check_collision_frame (head.position + f) g2
    rw [hcp, hcf, hplayer]
    obtain ⟨hboard, hfree⟩ :=
      pick_food_position_spec (g.player.nodes ++ [⟨fresh, head.position + f⟩]) rs p hpick
    exact ⟨rfl, by simp, p, hfood, hboard, hfree⟩

/-- Witness for C2: from `gFoodAhead`, one tick with rng draw `(20, 30)` and
fresh entity 10 appends the new head `(10, 5)` and relocates the food. -/
theorem C2_eat_tick_witness :
    gAte.player.nodes = gFoodAhead.player.nodes ++ [⟨10, ⟨10, 5⟩⟩] ∧
    gAte.player.nodes.length = gFoodAhead.player.nodes.length + 1 ∧
    ∃ p, gAte.food.map SnakeFood.position = some p ∧ in_board p ∧
      ∀ n ∈ gAte.player.nodes, n.position ≠ p := by
  have h := C2_eat_tick [(20, 30)] 10 gFoodAhead gAte ⟨4, ⟨9, 5⟩⟩ ⟨1, 0⟩ []
    rfl (by decide) (by decide) (by decide) (by decide)
  simpa using h

/-! ### C4: the dead flag after a tick -/

/-- C4: on every alive tick that completes, the dead flag of the resulting
state is true exactly when, after the branch has run, more than one segment
occupies `next_position` or `next_position` is out of bounds — and on no
other condition. -/
theorem C4_collision_flag (rs : List (Nat × Nat)) (fresh : Entity) (g g1 : Game)
    (head : SnakeNode) (f : Offset) (q : List Offset)
    (hd : g.dead = false)
    (hh : g.player.nodes.getLast? = some head)
    (hdq : drain_queue g.player.facing g.input_queue = (f, q))
    (hupd : update rs fresh g = some g1) :
    g1.dead = true ↔
      1 < (g1.player.nodes.filter
            (fun n => decide (n.position = head.position + f))).length ∨
      is_out_of_bounds (head.position + f) = true := by
  by_cases hf : g.food.map SnakeFood.position = some (head.position + f)
  · rw [update_eat rs fresh g head f q _ hd hh hdq rfl hf] at hupd
    cases hnf : new_food rs (fresh + 1)
        { g with player := ⟨g.player.nodes ++ [⟨fresh, head.position + f⟩], f⟩,
                 input_queue := q } with
    | none => rw [hnf] at hupd; cases hupd
    | some g2 =>
      rw [hnf] at hupd
      simp only [Option.map, Option.some.injEq] at hupd
      subst hupd
      obtain ⟨p, _, hdead, _, _, _⟩ := new_food_some _ _ _ _ hnf
      obtain ⟨hcp, _, _⟩ := check_collision_frame (head.position + f) g2
      rw [hcp]
      exact check_collision_dead_iff (head.position + f) g2 (by rw [hdead]; exact hd)
  · rw [update_move rs fresh g head f q _ hd hh hdq rfl hf] at hupd
    simp only [Option.some.injEq] at hupd
    subst hupd
    obtain ⟨hcp, _, _⟩ := check_collision_frame (head.position + f)
      { g with player := ⟨shift_nodes g.player.nodes (head.position + f), f⟩,
               input_queue := q }
    rw [hcp]
    exact check_collision_dead_iff (head.position + f) _ hd

/-- Witness for C4: the plain move tick from the start state, whose head
cell is occupied once and on the board, leaves the snake alive. -/
theorem C4_collision_flag_witness :
    gMoved.dead = true ↔
      1 < (gMoved.player.nodes.filter
            (fun n => decide (n.position = (⟨9, 5⟩ : Position) + (⟨1, 0⟩ : Offset)))).length ∨
      is_out_of_bounds ((⟨9, 5⟩ : Position) + (⟨1, 0⟩ : Offset)) = true := by
  have h := C4_collision_flag [] 10 gStart gMoved ⟨4, ⟨9, 5⟩⟩ ⟨1, 0⟩ []
    rfl (by decide) (by decide) (by decide)
  exact h

/-! ### C7: restart builds a fresh game -/

/-- A successful `setup_game` produces the fixed five-segment snake at
`(5,5) … (9,5)` facing `(1,0)`, alive, with an empty queue and an on-board
food cell free of the snake. -/
lemma setup_game_some (rs : List (Nat × Nat)) (e0 : Entity) (g1 : Game)
    (h : setup_game rs e0 = some g1) :
    g1.dead = false ∧
    g1.input_queue = [] ∧
    g1.player.facing = ⟨1, 0⟩ ∧
    g1.player.nodes =
      [⟨e0, ⟨5, 5⟩⟩, ⟨e0 + 1, ⟨6, 5⟩⟩, ⟨e0 + 2, ⟨7, 5⟩⟩, ⟨e0 + 3, ⟨8, 5⟩⟩,
       ⟨e0 + 4, ⟨9, 5⟩⟩] ∧
    ∃ p, g1.food.map SnakeFood.position = some p ∧ in_board p ∧
      ∀ n ∈ g1.player.nodes, n.position ≠ p := by
  unfold setup_game at h
  obtain ⟨p, hpick, hdead, hplayer, hqueue, hfood⟩ := new_food_some _ _ _ _ h
  obtain ⟨hboard, hfree⟩ := pick_food_position_spec _ rs p hpick
  rw [hdead, hqueue, hplayer]
  refine ⟨rfl, rfl, rfl, ?_, p, hfood, hboard, ?_⟩
  · show (List.range 5).map (fun i => (⟨e0 + i, ⟨5 + i, 5⟩⟩ : SnakeNode)) = _
    simp [List.range_succ]
  · exact hfree

/-- C7: a KeyR release from any state despawns exactly the entities of
every body segment and of the food, and — when the rebuild's food sampling
succeeds — hands back a fresh alive game: five segments at `(5,5) … (9,5)`
facing `(1,0)`, empty queue, and an on-board food cell off the snake. -/
theorem C7_restart (k : KeyEvents) (rs : List (Nat × Nat)) (e0 : Entity) (g g1 : Game)
    (hr : k.r_released = true)
    (hres : (input k rs e0 g).1 = some g1) :
    (input k rs e0 g).2.1 =
      g.player.nodes.map SnakeNode.entity ++
        (match g.food with
         | some food => [food.entity]
         | none => []) ∧
    g1.dead = false ∧
    g1.input_queue = [] ∧
    g1.player.facing = ⟨1, 0⟩ ∧
    g1.player.nodes =
      [⟨e0, ⟨5, 5⟩⟩, ⟨e0 + 1, ⟨6, 5⟩⟩, ⟨e0 + 2, ⟨7, 5⟩⟩, ⟨e0 + 3, ⟨8, 5⟩⟩,
       ⟨e0 + 4, ⟨9, 5⟩⟩] ∧
    ∃ p, g1.food.map SnakeFood.position = some p ∧ in_board p ∧
      ∀ n ∈ g1.player.nodes, n.position ≠ p := by
  unfold input at hres ⊢
  rw [hr] at hres ⊢
  simp only [if_true] at hres ⊢
  constructor
  · unfold cleanup_game
    cases hgd : g.dead <;> simp
  · exact setup_game_some rs e0 g1 hres

/-- Witness for C7: restarting from the dead game with rng draw `(20, 30)`
and entities from 0 yields `gStart` and despawns entities 0–5. -/
theorem C7_restart_witness :
    (input kRestart [(20, 30)] 0 gDead).2.1 =
      gDead.player.nodes.map SnakeNode.entity ++
        (match gDead.food with
         | some food => [food.entity]
         | none => []) ∧
    gStart.dead = false ∧
    gStart.input_queue = [] ∧
    gStart.player.facing = ⟨1, 0⟩ ∧
    gStart.player.nodes =
      [⟨0, ⟨5, 5⟩⟩, ⟨0 + 1, ⟨6, 5⟩⟩, ⟨0 + 2, ⟨7, 5⟩⟩, ⟨0 + 3, ⟨8, 5⟩⟩, ⟨0 + 4, ⟨9, 5⟩⟩] ∧
    ∃ p, gStart.food.map SnakeFood.position = some p ∧ in_board p ∧
      ∀ n ∈ gStart.player.nodes, n.position ≠ p :=
  C7_restart kRestart [(20, 30)] 0 gDead gStart rfl (by decide)

/-! ### C8: input handling while alive and while dead -/

/-- C8: a frame of the input system enqueues the offsets of the pressed
arrows (in source order Up, Down, Right, Left) at the back of the queue
while alive; while dead the queue — and the whole game — is left unchanged;
a KeyR release hands control to the rebuilt game regardless of the dead
flag, and the Escape exit signal passes through regardless of the dead
flag. -/
theorem C8_input_keys (k : KeyEvents) (rs : List (Nat × Nat)) (e0 : Entity) (g : Game) :
    (∀ q, queue_directions k q =
      q ++ ((if k.up_pressed then [⟨0, -1⟩] else []) ++
            (if k.down_pressed then [⟨0, 1⟩] else []) ++
            (if k.right_pressed then [⟨1, 0⟩] else []) ++
            (if k.left_pressed then [⟨-1, 0⟩] else []))) ∧
    (g.dead = false → k.r_released = false →
      (input k rs e0 g).1 =
        some { g with input_queue := queue_directions k g.input_queue }) ∧
    (g.dead = true → k.r_released = false → (input k rs e0 g).1 = some g) ∧
    (k.r_released = true → (input k rs e0 g).1 = setup_game rs e0) ∧
    (input k rs e0 g).2.2 = k.escape_held := by
  refine ⟨?_, ?_, ?_, ?_, ?_⟩
  · intro q
    rcases k with ⟨u, d, r, l, rr, esc⟩
    cases u <;> cases d <;> cases r <;> cases l <;> simp [queue_directions]
  · intro hd hr
    unfold input
    rw [hd, hr]
    simp
  · intro hd hr
    unfold input
    rw [hd, hr]
    simp
  · intro hr
    unfold input
    rw [hr]
    simp
  · unfold input
    cases hr : k.r_released <;> simp

/-- Witness for C8: pressing ArrowUp queues `(0, -1)` on the alive start
state and leaves the dead game untouched. -/
theorem C8_input_keys_witness :
    (input kUp [] 0 gStart).1 = some gUpQueued ∧
    (input kUp [] 0 gDead).1 = some gDead := by
  constructor
  · have h := (C8_input_keys kUp [] 0 gStart).2.1 rfl rfl
    rw [h]
    decide
  · exact (C8_input_keys kUp [] 0 gDead).2.2.1 rfl rfl

/-! ### Invariant machinery for the reachable-state claims -/

/-- Passing the bounds check means being on the board. -/
lemma not_oob_in_board (p : Position) (h : is_out_of_bounds p = false) : in_board p := by
  simp only [is_out_of_bounds, Bool.or_eq_false_iff, decide_eq_false_iff_not, not_le] at h
  exact ⟨h.1, h.2⟩

/-- When a unit step from an on-board cell lands on the board, the two cells
are grid-adjacent (the wrap of the usize cast can only leave the board). -/
lemma add_in_board_adjacent (p : Position) (o : Offset) (ho : o ∈ unit_offsets)
    (hp : in_board p) (hq : in_board (p + o)) : adjacent p (p + o) := by
  simp only [unit_offsets, List.mem_cons, List.not_mem_nil, or_false] at ho
  rcases ho with rfl | rfl | rfl | rfl <;>
    simp only [hAdd_def, Position.add, usizeOfInt, USIZE, adjacent, in_board,
      WIDTH, HEIGHT] at hp hq ⊢ <;>
    omega

/-- The facing after the drain is the old facing or came out of the queue. -/
lemma drain_queue_fst_mem (f : Offset) (q : List Offset) :
    (drain_queue f q).1 = f ∨ (drain_queue f q).1 ∈ q := by
  induction q with
  | nil => exact Or.inl rfl
  | cons x t ih =>
    simp only [drain_queue]
    split
    · exact Or.inr (by simp)
    · rcases ih with h | h
      · exact Or.inl h
      · exact Or.inr (List.mem_cons_of_mem x h)

/-- The queue left after the drain is made of old queue entries. -/
lemma drain_queue_snd_subset (f : Offset) (q : List Offset) :
    ∀ x ∈ (drain_queue f q).2, x ∈ q := by
  induction q with
  | nil => intro x hx; cases hx
  | cons y t ih =>
    simp only [drain_queue]
    split
    · intro x hx; exact List.mem_cons_of_mem y hx
    · intro x hx; exact List.mem_cons_of_mem y (ih x hx)

/-- Appending one cell adjacent to the old last keeps the chain. -/
lemma chain_append_one (ps : List Position) (next h : Position)
    (hc : List.Chain' adjacent ps) (hl : ps.getLast? = some h)
    (ha : adjacent h next) :
    List.Chain' adjacent (ps ++ [next]) := by
  rw [List.chain'_append]
  refine ⟨hc, List.chain'_singleton next, ?_⟩
  intro x hx y hy
  simp only [List.head?_cons, Option.mem_def, Option.some.injEq] at hy
  subst hy
  rw [hl] at hx
  simp only [Option.mem_def, Option.some.injEq] at hx
  subst hx
  exact ha

/-- Dropping the tail and appending a cell adjacent to the old last keeps
the chain: the shape of the move branch on position lists. -/
lemma chain_shift (ps : List Position) (next h : Position)
    (hc : List.Chain' adjacent ps) (hl : ps.getLast? = some h)
    (ha : adjacent h next) :
    List.Chain' adjacent (ps.tail ++ [next]) := by
  rw [List.chain'_append]
  refine ⟨hc.tail, List.chain'_singleton next, ?_⟩
  intro x hx y hy
  simp only [List.head?_cons, Option.mem_def, Option.some.injEq] at hy
  subst hy
  cases ps with
  | nil => cases hl
  | cons a t =>
    cases t with
    | nil => simp at hx
    | cons b t2 =>
      rw [List.getLast?_cons_cons] at hl
      simp only [List.tail_cons] at hx
      rw [hl] at hx
      simp only [Option.mem_def, Option.some.injEq] at hx
      subst hx
      exact ha

/-- Every entry the input frame can add to the queue is a unit offset. -/
lemma queue_directions_mem (k : KeyEvents) (q : List Offset) :
    ∀ o ∈ queue_directions k q, o ∈ q ∨ o ∈ unit_offsets := by
  intro o ho
  rcases k with ⟨u, d, r, l, rr, esc⟩
  cases u <;> cases d <;> cases r <;> cases l <;>
    simp only [queue_directions, if_true, if_false, Bool.false_eq_true, Bool.true_eq_false,
      List.mem_append, List.mem_cons, List.not_mem_nil, or_false, unit_offsets] at ho ⊢ <;>
    tauto

/-- A freshly set-up game satisfies the invariant. -/
lemma inv_setup (rs : List (Nat × Nat)) (e0 : Entity) (g : Game)
    (h : setup_game rs e0 = some g) : Inv g := by
  obtain ⟨hdead, hqueue, hfacing, hnodes, _⟩ := setup_game_some rs e0 g h
  refine ⟨?_, ?_, ?_, ?_, ?_⟩
  · rw [hnodes]; simp
  · rw [hfacing]; decide
  · rw [hqueue]; intro o ho; cases ho
  · intro _ n hn
    rw [hnodes] at hn
    simp only [List.mem_cons, List.not_mem_nil, or_false] at hn
    rcases hn with rfl | rfl | rfl | rfl | rfl
    · exact (by decide : in_board (⟨5, 5⟩ : Position))
    · exact (by decide : in_board (⟨6, 5⟩ : Position))
    · exact (by decide : in_board (⟨7, 5⟩ : Position))
    · exact (by decide : in_board (⟨8, 5⟩ : Position))
    · exact (by decide : in_board (⟨9, 5⟩ : Position))
  · intro _
    rw [hnodes]
    simp only [List.map_cons, List.map_nil]
    decide

/-- An input frame preserves the invariant. -/
lemma inv_input (k : KeyEvents) (rs : List (Nat × Nat)) (e0 : Entity) (g g1 : Game)
    (hg : Inv g) (h : (input k rs e0 g).1 = some g1) : Inv g1 := by
  unfold input at h
  cases hr : k.r_released with
  | true =>
    rw [hr] at h
    simp only [if_true] at h
    exact inv_setup rs e0 g1 h
  | false =>
    rw [hr] at h
    simp only [Bool.false_eq_true, if_false, Option.some.injEq] at h
    subst h
    cases hgd : g.dead with
    | true =>
      rw [if_pos rfl]
      exact hg
    | false =>
      rw [if_neg (by decide)]
      refine ⟨hg.len5, hg.facing_unit, ?_, fun _ => hg.alive_bounds hgd,
        fun _ => hg.alive_chain hgd⟩
      intro o ho
      rcases queue_directions_mem k g.input_queue o ho with hmem | hmem
      · exact hg.queue_unit o hmem
      · exact hmem

/-- A tick preserves the invariant. -/
lemma inv_update (rs : List (Nat × Nat)) (fresh : Entity) (g g1 : Game)
    (hg : Inv g) (h : update rs fresh g = some g1) : Inv g1 := by
  cases hgd : g.dead with
  | true =>
    have hid : update rs fresh g = some g := by
      unfold update
      rw [hgd]
      simp
    rw [hid, Option.some.injEq] at h
    subst h
    exact hg
  | false =>
    cases hh : g.player.nodes.getLast? with
    | none => rw [update_empty rs fresh g hgd hh] at h; cases h
    | some head =>
      rcases hdq : drain_queue g.player.facing g.input_queue with ⟨f, q⟩
      have hfu : f ∈ unit_offsets := by
        have hm := drain_queue_fst_mem g.player.facing g.input_queue
        rw [hdq] at hm
        rcases hm with he | he
        · have hef : f = g.player.facing := he
          rw [hef]
          exact hg.facing_unit
        · exact hg.queue_unit _ he
      have hqu : ∀ o ∈ q, o ∈ unit_offsets := by
        intro o ho
        have hs := drain_queue_snd_subset g.player.facing g.input_queue
        rw [hdq] at hs
        exact hg.queue_unit o (hs o ho)
      have hheadb : in_board head.position :=
        hg.alive_bounds hgd head (List.mem_of_getLast?_eq_some hh)
      have hlast : (g.player.nodes.map SnakeNode.position).getLast? =
          some head.position := by
        rw [List.getLast?_map, hh]
        rfl
      by_cases hfood : g.food.map SnakeFood.position = some (head.position + f)
      · -- eat branch
        rw [update_eat rs fresh g head f q _ hgd hh hdq rfl hfood] at h
        cases hnf : new_food rs (fresh + 1)
            { g with player := ⟨g.player.nodes ++ [⟨fresh, head.position + f⟩], f⟩,
                     input_queue := q } with
        | none => rw [hnf] at h; cases h
        | some g2 =>
          rw [hnf] at h
          simp only [Option.map, Option.some.injEq] at h
          subst h
          obtain ⟨p, hpick, hdead2, hplayer2, hqueue2, hfood2⟩ := new_food_some _ _ _ _ hnf
          obtain ⟨hcp, hcf, hcq⟩ := check_collision_frame (head.position + f) g2
          have hg2d : g2.dead = false := by rw [hdead2]; exact hgd
          have key : (check_collision (head.position + f) g2).dead = false →
              in_board (head.position + f) := by
            intro hd1
            apply not_oob_in_board
            cases hoob : is_out_of_bounds (head.position + f) with
            | false => rfl
            | true =>
              have hdt := (check_collision_dead_iff (head.position + f) g2 hg2d).mpr
                (Or.inr hoob)
              rw [hd1] at hdt
              cases hdt
          refine ⟨?_, ?_, ?_, ?_, ?_⟩
          · rw [hcp, hplayer2]
            have h5 := hg.len5
            simp only [List.length_append, List.length_cons, List.length_nil]
            omega
          · rw [hcp, hplayer2]
            exact hfu
          · rw [hcq, hqueue2]
            exact hqu
          · intro hd1 n hn
            rw [hcp, hplayer2] at hn
            rcases List.mem_append.mp hn with hmem | hmem
            · exact hg.alive_bounds hgd n hmem
            · simp only [List.mem_cons, List.not_mem_nil, or_false] at hmem
              subst hmem
              exact key hd1
          · intro hd1
            rw [hcp, hplayer2]
            show List.Chain' adjacent
              ((g.player.nodes ++ [(⟨fresh, head.position + f⟩ : SnakeNode)]).map
                SnakeNode.position)
            rw [List.map_append]
            exact chain_append_one _ _ head.position (hg.alive_chain hgd) hlast
              (add_in_board_adjacent head.position f hfu hheadb (key hd1))
      · -- move branch
        rw [update_move rs fresh g head f q _ hgd hh hdq rfl hfood] at h
        simp only [Option.some.injEq] at h
        subst h
        obtain ⟨hcp, hcf, hcq⟩ := check_collision_frame (head.position + f)
          { g with player := ⟨shift_nodes g.player.nodes (head.position + f), f⟩,
                   input_queue := q }
        have hne : g.player.nodes ≠ [] := by
          intro e
          rw [e] at hh
          cases hh
        have key : (check_collision (head.position + f)
            { g with player := ⟨shift_nodes g.player.nodes (head.position + f), f⟩,
                     input_queue := q }).dead = false →
            in_board (head.position + f) := by
          intro hd1
          apply not_oob_in_board
          cases hoob : is_out_of_bounds (head.position + f) with
          | false => rfl
          | true =>
            have hdt := (check_collision_dead_iff (head.position + f)
              { g with player := ⟨shift_nodes g.player.nodes (head.position + f), f⟩,
                       input_queue := q } hgd).mpr (Or.inr hoob)
            rw [hd1] at hdt
            cases hdt
        refine ⟨?_, ?_, ?_, ?_, ?_⟩
        · rw [hcp]
          show 5 ≤ (shift_nodes g.player.nodes (head.position + f)).length
          rw [shift_nodes_length]
          exact hg.len5
        · rw [hcp]
          exact hfu
        · rw [hcq]
          exact hqu
        · intro hd1 n hn
          rw [hcp] at hn
          have hpos : n.position ∈
              (shift_nodes g.player.nodes (head.position + f)).map SnakeNode.position :=
            List.mem_map_of_mem _ hn
          rw [shift_nodes_map_position _ _ hne] at hpos
          rcases List.mem_append.mp hpos with hmem | hmem
          · obtain ⟨m, hm, hmp⟩ :=
              List.mem_map.mp (List.mem_of_mem_tail hmem)
            rw [← hmp]
            exact hg.alive_bounds hgd m hm
          · simp only [List.mem_cons, List.not_mem_nil, or_false] at hmem
            rw [hmem]
            exact key hd1
        · intro hd1
          rw [hcp]
          show List.Chain' adjacent
            ((shift_nodes g.player.nodes (head.position + f)).map SnakeNode.position)
          rw [shift_nodes_map_position _ _ hne]
          exact chain_shift _ _ head.position (hg.alive_chain hgd) hlast
            (add_in_board_adjacent head.position f hfu hheadb (key hd1))

/-- Every reachable state satisfies the invariant. -/
lemma inv_reachable (g : Game) (h : Reachable g) : Inv g := by
  induction h with
  | init rs e0 g hs => exact inv_setup rs e0 g hs
  | key k rs e0 g g1 hR hin ih => exact inv_input k rs e0 g g1 ih hin
  | tick rs fresh g g1 hR hup ih => exact inv_update rs fresh g g1 ih hup

/-- Iterating ticks preserves reachability. -/
lemma reachable_iterate : ∀ (n : Nat) (g g1 : Game), Reachable g →
    iterate_update n g = some g1 → Reachable g1 := by
  intro n
  induction n with
  | zero =>
    intro g g1 hr h
    simp only [iterate_update, Option.some.injEq] at h
    subst h
    exact hr
  | succ m ih =>
    intro g g1 hr h
    simp only [iterate_update] at h
    cases hu : update [] 0 g with
    | none => rw [hu] at h; cases h
    | some g2 =>
      rw [hu] at h
      exact ih g2 g1 (Reachable.tick [] 0 g g2 hr hu) h

/-! ### C6: adjacency of consecutive segments -/

/-- C6 (amended): in every reachable game state **with `dead = false`**,
consecutive entries of the segment list are grid-adjacent; the invariant is
established by the initial construction and preserved by every tick that
leaves the snake alive.  (The last element being the head is how `update`
reads the head by construction.)  The unrestricted claim fails: see the
counterexample, a reachable dead state whose head coordinate wrapped. -/
theorem C6_adjacent_alive (g : Game) (h : Reachable g) (hd : g.dead = false) :
    List.Chain' adjacent (g.player.nodes.map SnakeNode.position) :=
  (inv_reachable g h).alive_chain hd

/-- Witness for C6 at the concrete start state. -/
theorem C6_adjacent_alive_witness :
    List.Chain' adjacent (gStart.player.nodes.map SnakeNode.position) :=
  C6_adjacent_alive gStart (Reachable.init [(20, 30)] 0 gStart (by decide)) rfl

/-- Counterexample to C6 as stated: `gWrapped` is reachable (turn up, turn
left, walk off the left edge in ten ticks), yet its last two segments sit at
`(0, 4)` and `(2 ^ 64 - 1, 4)`, which are not grid-adjacent — the claim
over *every* reachable state is false; it holds only while `dead = false`. -/
theorem C6_adjacent_counterexample :
    Reachable gWrapped ∧ gWrapped.dead = true ∧
    ¬ List.Chain' adjacent (gWrapped.player.nodes.map SnakeNode.position) := by
  have r0 : Reachable gStart := Reachable.init [(20, 30)] 0 gStart (by decide)
  have r1 : Reachable gUpQueued := Reachable.key kUp [] 0 gStart gUpQueued r0 (by decide)
  have r2 : Reachable gTurnedUp :=
    Reachable.tick [] 0 gUpQueued gTurnedUp r1 (by decide)
  have r3 : Reachable gLeftQueued :=
    Reachable.key kLeft [] 0 gTurnedUp gLeftQueued r2 (by decide)
  have r4 : Reachable gWrapped := reachable_iterate 10 gLeftQueued gWrapped r3 (by decide)
  exact ⟨r4, rfl, by decide⟩

/-! ### C10: the head lookup cannot panic -/

/-- C10: every reachable state has at least the five initial segments — no
operation ever removes one — so the segment list is non-empty and the
`nodes.last().unwrap()` head lookup in `update` (the `none` arm of the
embedding's `getLast?` match) is unreachable. -/
theorem C10_head_lookup_safe (g : Game) (h : Reachable g) :
    5 ≤ g.player.nodes.length ∧ g.player.nodes.getLast?.isSome = true := by
  have hi := inv_reachable g h
  refine ⟨hi.len5, ?_⟩
  have hne : g.player.nodes ≠ [] := by
    intro e
    have h5 := hi.len5
    rw [e] at h5
    simp at h5
  exact List.getLast?_isSome.mpr hne

/-- Witness for C10 at the concrete start state. -/
theorem C10_head_lookup_safe_witness :
    5 ≤ gStart.player.nodes.length ∧ gStart.player.nodes.getLast?.isSome = true :=
  C10_head_lookup_safe gStart (Reachable.init [(20, 30)] 0 gStart (by decide))

end Snake
